import Mathlib

/-!
Verification development for the resume-ingestion repository (`ocr_tool`).

Text is modelled as `List Char`.  Python string/regex operations used by the
source are embedded as executable Lean functions.  Character classes from the
source's regular expressions (`[A-Za-z0-9._%+-]`, `\w`, `\s`, ...) are modelled
over their ASCII semantics, which is the range exercised by every concrete
input below; external collaborators (the Unicode NFKC normalizer, the LLM
extractor, the document converter, the phone-number library, the location
store) are parameters of the embedded functions.
-/

/-- The "not available" sentinel `DEFAULT_NA = "#N/A"` from `import_cvs.py`. -/
def DEFAULT_NA : List Char := ['#', 'N', '/', 'A']

/-- Python whitespace class `\s` (and the default `str.strip` / `str.split`
character set), restricted to its ASCII members. -/
def isPyWS (c : Char) : Bool :=
  c == ' ' || c == '\t' || c == '\n' || c == '\r' || c == '\x0b' || c == '\x0c'

/-- Line-break characters recognised by Python `str.splitlines`
(ASCII members plus NEL and the Unicode line/paragraph separators). -/
def isLineBreak (c : Char) : Bool :=
  c == '\n' || c == '\r' || c == '\x0b' || c == '\x0c' ||
  c == '\x1c' || c == '\x1d' || c == '\x1e' || c == '\u0085' ||
  c == '\u2028' || c == '\u2029'

/-- The regex word class `\w`, over its ASCII members `[A-Za-z0-9_]`. -/
def isWordChar (c : Char) : Bool :=
  c.isAlphanum || c == '_'

/-- The `[ \t]` class of `layout.py`'s space-collapsing substitution. -/
def isSpaceTab (c : Char) : Bool :=
  c == ' ' || c == '\t'

/-- `c.lower()` applied to every character (`str.lower`, ASCII range). -/
def lowerList (l : List Char) : List Char :=
  l.map Char.toLower

/-- Python `str.strip()` with no arguments: drop leading whitespace. -/
def dropStartWS (l : List Char) : List Char :=
  l.dropWhile isPyWS

/-- Python `str.strip()` with no arguments: drop trailing whitespace. -/
def dropEndWS (l : List Char) : List Char :=
  (l.reverse.dropWhile isPyWS).reverse

/-- Python `str.strip()` (both ends, default whitespace set). -/
def stripChars (l : List Char) : List Char :=
  dropEndWS (dropStartWS l)

/-- Python `str.strip(chars)` for an explicit character set `cs`. -/
def stripSet (cs : List Char) (l : List Char) : List Char :=
  ((l.dropWhile (fun c => cs.contains c)).reverse.dropWhile
      (fun c => cs.contains c)).reverse

/-- Substring containment, Python's `pat in s`. -/
def isPrefixList : List Char → List Char → Bool
  | [], _ => true
  | _ :: _, [] => false
  | a :: as, b :: bs => a == b && isPrefixList as bs

/-- Substring containment, Python's `pat in s` (scans every suffix). -/
def containsSub (pat : List Char) : List Char → Bool
  | [] => pat.isEmpty
  | c :: rest => isPrefixList pat (c :: rest) || containsSub pat rest

/-- Python `str.splitlines`, accumulator-based worker.  `\r\n` counts as a
single line break; a trailing terminator produces no empty final line. -/
def splitlinesAux (acc : List Char) : List Char → List (List Char)
  | [] => [acc.reverse]
  | '\r' :: '\n' :: rest =>
      if rest.isEmpty then [acc.reverse] else acc.reverse :: splitlinesAux [] rest
  | c :: rest =>
      if isLineBreak c then
        (if rest.isEmpty then [acc.reverse] else acc.reverse :: splitlinesAux [] rest)
      else splitlinesAux (c :: acc) rest

/-- Python `str.splitlines` (`"".splitlines() == []`). -/
def splitlines (s : List Char) : List (List Char) :=
  if s.isEmpty then [] else splitlinesAux [] s

/-- The recurring Python idiom
`[ln.strip() for ln in t.splitlines() if ln.strip()]`. -/
def nonEmptyStrippedLines (t : List Char) : List (List Char) :=
  ((splitlines t).map stripChars).filter (fun l => !l.isEmpty)

/-- `"\n".join(lines)`. -/
def joinNL : List (List Char) → List Char
  | [] => []
  | [l] => l
  | l :: ls => l ++ '\n' :: joinNL ls

/-- `" ".join(lines)`. -/
def joinSpace : List (List Char) → List Char
  | [] => []
  | [l] => l
  | l :: ls => l ++ ' ' :: joinSpace ls

namespace Layout

/-- `re.sub(r"\r\n", "\n", t)`: each occurrence of the two-character sequence
`\r\n` is replaced by `\n`, scanning left to right without overlap. -/
def subCRLF : List Char → List Char
  | '\r' :: '\n' :: rest => '\n' :: subCRLF rest
  | c :: rest => c :: subCRLF rest
  | [] => []

/-- `re.sub(r"[ \t]+", " ", t)`: worker; the flag records whether we are
inside a run of spaces/tabs that has already emitted its single space. -/
def collapseSpacesAux : Bool → List Char → List Char
  | _, [] => []
  | inRun, c :: rest =>
      if isSpaceTab c then
        (if inRun then collapseSpacesAux true rest
         else ' ' :: collapseSpacesAux true rest)
      else c :: collapseSpacesAux false rest

/-- `re.sub(r"[ \t]+", " ", t)`: collapse each maximal run of spaces/tabs to
a single space. -/
def collapseSpaces (l : List Char) : List Char :=
  collapseSpacesAux false l

/-- `re.sub(r"(\w)-\n(\w)", r"\1\2", t)`: join a word hyphenated across a
line break; the regex engine consumes the whole match and resumes after it. -/
def joinHyphens : List Char → List Char
  | a :: '-' :: '\n' :: b :: rest2 =>
      if isWordChar a && isWordChar b then a :: b :: joinHyphens rest2
      else a :: '-' :: '\n' :: joinHyphens (b :: rest2)
  | a :: rest => a :: joinHyphens rest
  | [] => []

/-- `re.sub(r"\n{3,}", "\n\n", t)`: worker; `k` counts the pending newline
run, which is emitted (capped at 2) when the run ends. -/
def collapseNLAux : Nat → List Char → List Char
  | k, [] => List.replicate (min k 2) '\n'
  | k, c :: rest =>
      if c == '\n' then collapseNLAux (k + 1) rest
      else List.replicate (min k 2) '\n' ++ c :: collapseNLAux 0 rest

/-- `re.sub(r"\n{3,}", "\n\n", t)`: collapse every run of three or more
newlines to exactly two. -/
def collapseNewlines (l : List Char) : List Char :=
  collapseNLAux 0 l

/-- `normalize_text` from `extractors/layout.py`.  The Unicode NFKC
normalizer (`unicodedata.normalize("NFKC", ·)`, a library collaborator) is
the parameter `nfkc`; on pure-ASCII input it is the identity. -/
def normalize_text (nfkc : List Char → List Char) (s : List Char) : List Char :=
  if s.isEmpty then []
  else
    let t1 := subCRLF (nfkc s)
    let t2 := collapseSpaces t1
    let t3 := joinHyphens t2
    let t4 := collapseNewlines t3
    let lines := nonEmptyStrippedLines t4
    let t5 :=
      if 6 < lines.length then
        let hd := lines.take 2
        let tl := lines.drop (lines.length - 2)
        let filtered := lines.filter (fun ln => !(hd.contains ln) && !(tl.contains ln))
        if filtered.isEmpty then joinNL lines else joinNL filtered
      else t4
    stripChars t5

end Layout

section LayoutChecks

example : Layout.normalize_text id ("a\r\r\nb".data) = "a\r\nb".data := by decide

example :
    Layout.normalize_text id (Layout.normalize_text id ("a\r\r\nb".data)) = "a\nb".data := by
  decide

example : Layout.normalize_text id ("a\rb".data) = "a\rb".data := by decide

end LayoutChecks

namespace ImportCvs

/-- `clean_mobile_number` from `import_cvs.py`: strip non-digits
(`re.sub(r"\D", "", raw_number)`, ASCII digits), keep the last 10 if more
than 10 remain, and demand exactly 10 digits. -/
def clean_mobile_number (raw : List Char) : List Char :=
  if raw = DEFAULT_NA then DEFAULT_NA
  else
    let digits := raw.filter Char.isDigit
    let digits := if digits.length > 10 then digits.drop (digits.length - 10) else digits
    if digits.length = 10 then digits else DEFAULT_NA

end ImportCvs

namespace PdfUtils

/-- Count of non-whitespace characters of one page's text
(`len(re.sub(r"\s+", "", txt))`); `page.get_text` may return `None`,
handled by `or ""`. -/
def pageNonWS (p : Option (List Char)) : Nat :=
  ((p.getD []).filter (fun c => !isPyWS c)).length

/-- The page loop of `is_scanned_pdf_bytes`: accumulate non-whitespace
characters, returning `false` as soon as the threshold is reached. -/
def scanGo (minChars : Nat) : List (Option (List Char)) → Nat → Bool
  | [], _ => true
  | p :: rest, acc =>
      let acc2 := acc + pageNonWS p
      if minChars ≤ acc2 then false else scanGo minChars rest acc2

/-- `is_scanned_pdf_bytes` from `extractors/pdf_utils.py`.  The converter
collaborator (`fitz.open` + per-page `get_text`) is modelled by its outcome:
either an error or the list of per-page texts. -/
def is_scanned_pdf_bytes (doc : Except Unit (List (Option (List Char))))
    (minChars : Nat) : Bool :=
  match doc with
  | .error _ => true
  | .ok pages => scanGo minChars pages 0

end PdfUtils

/-- A row of the external `locations` table: (id, area, city, state). -/
structure LocRow where
  locId : List Char
  area : List Char
  city : List Char
  state : List Char
deriving DecidableEq

/-- Case-insensitive equality, `LOWER(x) = LOWER(y)` (ASCII lowering). -/
def lowEq (a b : List Char) : Bool :=
  lowerList a == lowerList b

/-- Case-insensitive substring containment, modelling MySQL
`:loc LIKE CONCAT('%', col, '%')` under a case-insensitive collation
(wildcard characters inside column values are not modelled). -/
def containsCI (big sub : List Char) : Bool :=
  containsSub (lowerList sub) (lowerList big)

namespace ImportCvs

/-- Predicate of the first `find_location_id` query:
`LOWER(city)=LOWER(:city) AND LOWER(state)=LOWER(:state)` with the
parameters stripped (`city.strip()`, `state.strip()`). -/
def cityStateMatch (city state : List Char) (r : LocRow) : Bool :=
  lowEq r.city (stripChars city) && lowEq r.state (stripChars state)

/-- Predicate of the second `find_location_id` query:
`LOWER(area)=LOWER(:area) AND LOWER(city)=LOWER(:city)`. -/
def areaCityMatch (area city : List Char) (r : LocRow) : Bool :=
  lowEq r.area (stripChars area) && lowEq r.city (stripChars city)

/-- Predicate of the third `find_location_id` query: the free-text location
contains the row's area, city or state. -/
def freeTextMatch (loc : List Char) (r : LocRow) : Bool :=
  containsCI loc r.area || containsCI loc r.city || containsCI loc r.state

/-- First step of `find_location_id`: the (city, state) query, run only when
both inputs differ from the sentinel; `LIMIT 1` returns the first matching
row in store order. -/
def locQuery1 (store : List LocRow) (city state : List Char) : Option LocRow :=
  if city ≠ DEFAULT_NA ∧ state ≠ DEFAULT_NA
  then store.find? (cityStateMatch city state) else none

/-- Second step of `find_location_id`: the (area, city) query. -/
def locQuery2 (store : List LocRow) (area city : List Char) : Option LocRow :=
  if area ≠ DEFAULT_NA ∧ city ≠ DEFAULT_NA
  then store.find? (areaCityMatch area city) else none

/-- Third step of `find_location_id`: the free-text containment query. -/
def locQuery3 (store : List LocRow) (free : List Char) : Option LocRow :=
  if free ≠ DEFAULT_NA then store.find? (freeTextMatch free) else none

/-- `find_location_id` from `import_cvs.py`: the external location store is
the parameter `store`; each query's hit returns immediately with the row id,
and the sentinel is returned when all three steps are skipped or miss. -/
def find_location_id (store : List LocRow)
    (area city state free : List Char) : List Char :=
  match locQuery1 store city state with
  | some r => r.locId
  | none =>
    match locQuery2 store area city with
    | some r => r.locId
    | none =>
      match locQuery3 store free with
      | some r => r.locId
      | none => DEFAULT_NA

end ImportCvs

namespace LlmUtils

/-- Python's `round` (banker's rounding, round-half-to-even) on a rational. -/
def roundHalfEven (q : ℚ) : ℤ :=
  let f := ⌊q⌋
  let r := q - (f : ℚ)
  if r < (1 : ℚ) / 2 then f
  else if (1 : ℚ) / 2 < r then f + 1
  else if f % 2 = 0 then f else f + 1

/-- Python's `round(q, 1)`: round to one decimal place, half to even.
Python floats are modelled by rationals. -/
def pyRound1 (q : ℚ) : ℚ :=
  (roundHalfEven (10 * q) : ℚ) / 10

/-- `normalize_bfsi_score` from `llm_utils.py`.  The `float(score)`
conversion is a library call; its outcome is the parameter: `none` when it
raises (`ValueError`/`TypeError`, i.e. non-numeric or `None` input), and the
parsed value otherwise.  `none` output models the function's `None` return. -/
def normalize_bfsi_score (score : Option ℚ) : Option ℚ :=
  match score with
  | none => none
  | some s => some (pyRound1 (if s > 10 then s / 10 else s))

end LlmUtils

/-- Classification of the `cv_cvscore` entry as seen by
`calculate_cv_score`: the `#N/A` sentinel (also used for a missing key), a
string that `float` parses to `q`, or a string on which `float` raises. -/
inductive FinScore where
  | na : FinScore
  | num : ℚ → FinScore
  | malformed : FinScore
deriving DecidableEq

/-- Result of `calculate_cv_score`: the literal string `"0"` on any failure,
or `str(round(float(finscore), 1))` on success. -/
inductive CvScore where
  | zeroStr : CvScore
  | rounded : ℚ → CvScore
deriving DecidableEq

namespace ImportCvs

/-- `calculate_cv_score` from `import_cvs.py`: `"0"` when the score is the
sentinel or `float` raises, else the value rounded to one decimal (no
division by 10 happens here). -/
def calculate_cv_score : FinScore → CvScore
  | .na => .zeroStr
  | .malformed => .zeroStr
  | .num q => .rounded (LlmUtils.pyRound1 q)

end ImportCvs

section DeriverChecks

example : ImportCvs.clean_mobile_number ("+91 98765-43210".data) = "9876543210".data := by
  decide

example : ImportCvs.clean_mobile_number ("12345".data) = DEFAULT_NA := by decide

example : LlmUtils.normalize_bfsi_score (some 85) = some (17 / 2) := by
  norm_num [LlmUtils.normalize_bfsi_score, LlmUtils.pyRound1, LlmUtils.roundHalfEven]

example : LlmUtils.normalize_bfsi_score (some (5 / 4)) = some (6 / 5) := by
  norm_num [LlmUtils.normalize_bfsi_score, LlmUtils.pyRound1, LlmUtils.roundHalfEven]

example :
    PdfUtils.is_scanned_pdf_bytes
      (.ok (List.replicate 10 (some (List.replicate 20 'x')))) 200 = false := by
  decide

end DeriverChecks

/-- `\b` holds before position `i` of `text` when `i` starts the text or the
previous character is not a word character (the next character is always a
word character at the call sites). -/
def boundaryBefore (text : List Char) (i : Nat) : Bool :=
  i == 0 || !isWordChar (text.getD (i - 1) ' ')

/-- `\b` holds after position `p` when `p` is the end of the text or the
character there is not a word character (the previous character is always a
word character at the call sites). -/
def boundaryAfter (text : List Char) (p : Nat) : Bool :=
  match text.get? p with
  | none => true
  | some c => !isWordChar c

/-- Case-insensitive literal match of `w` (given lower-case) at position `i`. -/
def matchesCIAt (text w : List Char) (i : Nat) : Bool :=
  (List.range w.length).all fun j =>
    match text.get? (i + j) with
    | some c => c.toLower == w.getD j ' '
    | none => false

/-- `re.search(r"\b(w1|w2|...)\b", text, re.IGNORECASE) is not None` for a
list of plain words: some word matches at some position with word boundaries
on both sides.  (An optional trailing `\.?` in the source patterns is
absorbed: a dot is not a word character, so `\bw\.?\b` matches exactly when
`\bw\b` does.) -/
def searchWordsCI (text : List Char) (ws : List (List Char)) : Bool :=
  (List.range text.length).any fun i =>
    boundaryBefore text i &&
      ws.any fun w => matchesCIAt text w i && boundaryAfter text (i + w.length)

/-- Python `str.split()` with no arguments: worker accumulating the current
token (reversed). -/
def splitWSAux (acc : List Char) : List Char → List (List Char)
  | [] => if acc.isEmpty then [] else [acc.reverse]
  | c :: rest =>
      if isPyWS c then
        (if acc.isEmpty then splitWSAux [] rest
         else acc.reverse :: splitWSAux [] rest)
      else splitWSAux (c :: acc) rest

/-- Python `str.split()` with no arguments: split on whitespace runs,
dropping empty pieces. -/
def splitWS (l : List Char) : List (List Char) :=
  splitWSAux [] l

/-- `email.split("@")[0]`: the part of the string before the first `@`
(the whole string when there is no `@`). -/
def beforeAt (email : List Char) : List Char :=
  email.takeWhile (fun c => c ≠ '@')

/-- `email.split("@")[0].split(".")[0]`: the email's first local-part token. -/
def emailFirstToken (email : List Char) : List Char :=
  (beforeAt email).takeWhile (fun c => c ≠ '.')

namespace ImportCvs

/-- Score accumulation of `detect_gender` in `import_cvs.py` (batch path).
`maleNames`/`femaleNames` are the reference name table (the external
`gender_names.json` data); `llmGender` is `Option` because the source guards
against `None`.  Returns `(male_score, female_score)`. -/
def genderScores (maleNames femaleNames : List (List Char))
    (text extractedName : List Char) (llmGender : Option (List Char))
    (email : List Char) : Nat × Nat :=
  let tl := lowerList text
  -- 1. pronouns, weight 2, substring containment with surrounding spaces
  let m1 : Nat :=
    if containsSub (' ' :: 'h' :: 'e' :: [' ']) tl ||
       containsSub (' ' :: 'h' :: 'i' :: 'm' :: [' ']) tl ||
       containsSub (' ' :: 'h' :: 'i' :: 's' :: [' ']) tl then 2 else 0
  let f1 : Nat :=
    if containsSub (' ' :: 's' :: 'h' :: 'e' :: [' ']) tl ||
       containsSub (' ' :: 'h' :: 'e' :: 'r' :: [' ']) tl ||
       containsSub (' ' :: 'h' :: 'e' :: 'r' :: 's' :: [' ']) tl then 2 else 0
  -- 2. titles, weight 1, regex with IGNORECASE on the raw text
  let m2 : Nat := if searchWordsCI text [['m', 'r']] then 1 else 0
  let f2 : Nat :=
    if searchWordsCI text [['m', 's'], ['m', 'r', 's'], ['m', 'i', 's', 's']] then 1 else 0
  -- 3. LLM-extracted gender, weight 3
  let (m3, f3) : Nat × Nat :=
    match llmGender with
    | none => (0, 0)
    | some g =>
        if g = DEFAULT_NA then (0, 0)
        else if lowerList g = ['m', 'a', 'l', 'e'] then (3, 0)
        else if lowerList g = ['f', 'e', 'm', 'a', 'l', 'e'] then (0, 3)
        else (0, 0)
  -- 4. name tokens against the reference table, weight 5 each side
  let (m4, f4) : Nat × Nat :=
    if extractedName ≠ DEFAULT_NA then
      (splitWS extractedName).foldl
        (fun acc part =>
          let pl := lowerList part
          let acc := if maleNames.contains pl then (acc.1 + 5, acc.2) else acc
          if femaleNames.contains pl then (acc.1, acc.2 + 5) else acc)
        (0, 0)
    else (0, 0)
  -- 5. email first token against the reference table, weight 2 each side
  let (m5, f5) : Nat × Nat :=
    if email ≠ DEFAULT_NA then
      let fe := lowerList (emailFirstToken email)
      let p : Nat × Nat := if maleNames.contains fe then (2, 0) else (0, 0)
      if femaleNames.contains fe then (p.1, p.2 + 2) else p
    else (0, 0)
  (m1 + m2 + m3 + m4 + m5, f1 + f2 + f3 + f4 + f5)

/-- `detect_gender` from `import_cvs.py` (batch path): `#N/A` when both
scores are zero, else Male on `male_score >= female_score`. -/
def detect_gender (maleNames femaleNames : List (List Char))
    (text extractedName : List Char) (llmGender : Option (List Char))
    (email : List Char) : List Char :=
  let s := genderScores maleNames femaleNames text extractedName llmGender email
  if s.1 = 0 ∧ s.2 = 0 then DEFAULT_NA
  else if s.2 ≤ s.1 then ['M', 'a', 'l', 'e'] else ['F', 'e', 'm', 'a', 'l', 'e']

end ImportCvs

namespace LlmUtils

/-- `check_name` from `llm_utils.detect_gender`: both the candidate and the
table entries are lowered, and the branches are `if`/`elif` (at most one
side is credited per token). -/
def checkName (maleNames femaleNames : List (List Char)) (n : List Char)
    (w : Nat) (acc : Nat × Nat) : Nat × Nat :=
  if (maleNames.map lowerList).contains (lowerList n) then (acc.1 + w, acc.2)
  else if (femaleNames.map lowerList).contains (lowerList n) then (acc.1, acc.2 + w)
  else acc

/-- Score accumulation of `detect_gender` in `llm_utils.py` (model path):
name tokens (weight 5), email first token (weight 2), then pronoun regexes
on the lowered text (weight 3). -/
def genderScores (maleNames femaleNames : List (List Char))
    (name text email : List Char) : Nat × Nat :=
  let acc : Nat × Nat := (0, 0)
  let acc :=
    if name ≠ [] then
      (splitWS name).foldl (fun a p => checkName maleNames femaleNames p 5 a) acc
    else acc
  let acc :=
    if email ≠ [] ∧ '@' ∈ email then
      checkName maleNames femaleNames (emailFirstToken email) 2 acc
    else acc
  let tl := lowerList text
  let acc :=
    if searchWordsCI tl [['h', 'e'], ['h', 'i', 'm'], ['h', 'i', 's']] then
      (acc.1 + 3, acc.2)
    else acc
  if searchWordsCI tl [['s', 'h', 'e'], ['h', 'e', 'r'], ['h', 'e', 'r', 's']] then
    (acc.1, acc.2 + 3)
  else acc

/-- `detect_gender` from `llm_utils.py` (model path): strictly greater score
wins; anything else — including a nonzero tie — yields `#N/A`. -/
def detect_gender (maleNames femaleNames : List (List Char))
    (name text email : List Char) : List Char :=
  let s := genderScores maleNames femaleNames name text email
  if s.2 < s.1 then ['M', 'a', 'l', 'e']
  else if s.1 < s.2 then ['F', 'e', 'm', 'a', 'l', 'e']
  else DEFAULT_NA

end LlmUtils

section GenderChecks

example :
    LlmUtils.genderScores [] [] [] ("he she".data) [] = (3, 3) := by decide

example :
    LlmUtils.detect_gender [] [] [] ("he she".data) [] = DEFAULT_NA := by decide

example :
    ImportCvs.genderScores ["ram".data] ["sita".data] [] ("Ram Sita".data)
      none DEFAULT_NA = (5, 5) := by decide

example :
    ImportCvs.detect_gender ["ram".data] ["sita".data] [] ("Ram Sita".data)
      none DEFAULT_NA = "Male".data := by decide

example :
    ImportCvs.detect_gender [] [] (" she is ".data) DEFAULT_NA none DEFAULT_NA
      = "Female".data := by decide

end GenderChecks

/-- The class `[A-Za-z]`, by code point. -/
def isAsciiLetter (c : Char) : Bool :=
  (65 ≤ c.toNat ∧ c.toNat ≤ 90) ∨ (97 ≤ c.toNat ∧ c.toNat ≤ 122)

/-- The class `[0-9]`, by code point. -/
def isAsciiDigit (c : Char) : Bool :=
  48 ≤ c.toNat ∧ c.toNat ≤ 57

/-- The local-part class `[A-Za-z0-9._%+-]` of the email pattern. -/
def isLocalChar (c : Char) : Bool :=
  isAsciiLetter c || isAsciiDigit c ||
    c == '.' || c == '_' || c == '%' || c == '+' || c == '-'

/-- The domain class `[A-Za-z0-9.-]` of the email pattern. -/
def isDomChar (c : Char) : Bool :=
  isAsciiLetter c || isAsciiDigit c || c == '.' || c == '-'

/-- Backtracking search for the domain dot of the email pattern
`[A-Za-z0-9.-]+\.[A-Za-z]{2,}`: the greedy `+` retreats from the end of the
maximal domain run, so the chosen dot is the last position `j ∈ [1, m-1]`
where `rest` has a `.` followed by at least two letters; returns the dot
position together with the greedy letter run after it. -/
def bestDot (rest : List Char) : Nat → Option (Nat × List Char)
  | 0 => none
  | j + 1 =>
      let a := (rest.drop (j + 2)).takeWhile isAsciiLetter
      if rest.get? (j + 1) == some '.' && 2 ≤ a.length then some (j + 1, a)
      else bestDot rest j

/-- One attempted match of the email pattern
`[A-Za-z0-9._%+-]+@[A-Za-z0-9.-]+\.[A-Za-z]{2,}` anchored at the start of
`s`, returning the matched characters.  The greedy local run must be
followed immediately by `@` (backtracking cannot help since `@` is not a
local character). -/
def emailMatchAt (s : List Char) : Option (List Char) :=
  let loc := s.takeWhile isLocalChar
  if loc.isEmpty then none
  else
    match s.drop loc.length with
    | '@' :: rest =>
        let m := (rest.takeWhile isDomChar).length
        match bestDot rest (m - 1) with
        | some (j, a) => some (loc ++ '@' :: (rest.take j ++ '.' :: a))
        | none => none
    | _ => none

/-- `finditer`/`findall` of the email pattern: scan left to right, taking
the leftmost match and resuming after it.  `fuel` is the remaining input
length (each step consumes at least one character). -/
def findEmailsAux : Nat → List Char → List (List Char)
  | 0, _ => []
  | _ + 1, [] => []
  | fuel + 1, c :: rest =>
      match emailMatchAt (c :: rest) with
      | some m => m :: findEmailsAux fuel (rest.drop (m.length - 1))
      | none => findEmailsAux fuel rest

/-- All matches of the shared email regex (`EMAIL_RE` in
`extractors/entities.py` and `EMAIL_REGEX` in `import_cvs.py`; the two
patterns are identical and `re.I` is vacuous on this pattern). -/
def findEmails (s : List Char) : List (List Char) :=
  findEmailsAux s.length s

namespace Entities

/-- `extract_emails` from `extractors/entities.py`:
`[m.group(0).lower().strip(" ,;") for m in EMAIL_RE.finditer(text)]`. -/
def extract_emails (text : List Char) : List (List Char) :=
  (findEmails text).map fun m => stripSet [' ', ',', ';'] (lowerList m)

end Entities

/-- The leading digit class `[6-9]` of the phone pattern. -/
def isSixToNine (c : Char) : Bool :=
  c == '6' || c == '7' || c == '8' || c == '9'

/-- `[6-9]\d{9}` anchored at the start of `s`: a digit 6–9 followed by nine
digits. -/
def tenDigitRun (s : List Char) : Option (List Char) :=
  match s with
  | a :: rest =>
      let nine := rest.take 9
      if isSixToNine a && nine.length == 9 && nine.all Char.isDigit then
        some (a :: nine)
      else none
  | [] => none

/-- One attempted match of `PHONE_REGEX = (?:\+91[-\s]?)?[6-9]\d{9}`
anchored at the start of `s`, with the regex engine's backtracking order:
prefix with separator, prefix without separator, then no prefix. -/
def phoneMatchAt (s : List Char) : Option (List Char) :=
  match s with
  | '+' :: '9' :: '1' :: rest =>
      (match rest with
       | c :: rest2 =>
           if c == '-' || isPyWS c then
             (match tenDigitRun rest2 with
              | some d => some ('+' :: '9' :: '1' :: c :: d)
              | none =>
                  match tenDigitRun rest with
                  | some d => some ('+' :: '9' :: '1' :: d)
                  | none => tenDigitRun s)
           else
             (match tenDigitRun rest with
              | some d => some ('+' :: '9' :: '1' :: d)
              | none => tenDigitRun s)
       | [] => tenDigitRun s)
  | _ => tenDigitRun s

/-- `PHONE_REGEX.findall`: leftmost non-overlapping matches. -/
def findPhonesAux : Nat → List Char → List (List Char)
  | 0, _ => []
  | _ + 1, [] => []
  | fuel + 1, c :: rest =>
      match phoneMatchAt (c :: rest) with
      | some m => m :: findPhonesAux fuel (rest.drop (m.length - 1))
      | none => findPhonesAux fuel rest

/-- All matches of `PHONE_REGEX` from `import_cvs.py`. -/
def findPhones (s : List Char) : List (List Char) :=
  findPhonesAux s.length s

/-- `PINCODE_REGEX = \b[1-9]\d{5}\b` anchored at the current position: six
digits, the first nonzero, with a word boundary on each side (the previous
character is passed separately). -/
def pinMatchHere (prev : Option Char) (s : List Char) : Bool :=
  let six := s.take 6
  (match prev with | none => true | some p => !isWordChar p) &&
    six.length == 6 && six.all Char.isDigit &&
    (match six with | c :: _ => c != '0' | [] => false) &&
    (match s.get? 6 with | none => true | some c => !isWordChar c)

/-- `PINCODE_REGEX.findall`: scan tracking the previous character for the
left word boundary; on a match, resume after its six digits. -/
def findPincodesAux : Nat → Option Char → List Char → List (List Char)
  | 0, _, _ => []
  | _ + 1, _, [] => []
  | fuel + 1, prev, c :: rest =>
      if pinMatchHere prev (c :: rest) then
        (c :: rest).take 6 ::
          findPincodesAux fuel ((c :: rest).get? 5) (rest.drop 5)
      else findPincodesAux fuel (some c) rest

/-- All matches of `PINCODE_REGEX` from `import_cvs.py`. -/
def findPincodes (s : List Char) : List (List Char) :=
  findPincodesAux s.length none s

/-- The four regex-derived override fields returned by
`basic_regex_overrides` (values are `#N/A` when the extractor found
nothing). -/
structure RegexOverrides where
  cv_email : List Char
  cv_mobile_number : List Char
  cv_pincode : List Char
  cv_summary : List Char
deriving DecidableEq

namespace ImportCvs

/-- `basic_regex_overrides` from `import_cvs.py`: first email match
(whitespace-stripped), first phone match with whitespace and hyphens removed,
first pincode match, and the first four non-empty lines joined by spaces and
truncated to 500 characters. -/
def basic_regex_overrides (text : List Char) : RegexOverrides :=
  let email := findEmails text
  let phone := findPhones text
  let pincode := findPincodes text
  let lines := nonEmptyStrippedLines text
  { cv_email := match email with | e :: _ => stripChars e | [] => DEFAULT_NA
    cv_mobile_number :=
      match phone with
      | p :: _ => p.filter (fun c => !(isPyWS c || c == '-'))
      | [] => DEFAULT_NA
    cv_pincode := match pincode with | p :: _ => p | [] => DEFAULT_NA
    cv_summary :=
      if lines.isEmpty then DEFAULT_NA
      else (joinSpace (lines.take 4)).take 500 }

end ImportCvs

section RegexChecks

example : findEmails ("a@b.co a@b.co".data) = ["a@b.co".data, "a@b.co".data] := by decide

example :
    Entities.extract_emails ("Mail: John.Doe@Firm.COM, x".data)
      = ["john.doe@firm.com".data] := by decide

example : findEmails ("a@b@c.co".data) = ["b@c.co".data] := by decide

example : findPhones ("call +91-9876543210 now".data) = ["+91-9876543210".data] := by decide

example : findPhones ("98765432101234".data) = ["9876543210".data] := by decide

example : findPincodes ("pin 600042 here".data) = ["600042".data] := by decide

example : findPincodes ("7600042".data) = [] := by decide

end RegexChecks

/-- A Python dictionary value in the merged record: `None` or a string. -/
inductive PyVal where
  | vnone : PyVal
  | vstr : List Char → PyVal
deriving DecidableEq

/-- Update of a string-keyed dictionary (`d[k] = v`); absence is `none`. -/
def updp (d : String → Option PyVal) (k : String) (v : PyVal) :
    String → Option PyVal :=
  fun q => if q = k then some v else d q

/-- Update of a string-valued dictionary (`ai_data[k] = v`). -/
def upds (d : String → Option (List Char)) (k : String) (v : List Char) :
    String → Option (List Char) :=
  fun q => if q = k then some v else d q

namespace App

/-- The `mapping` table of `upload_resume` in `app.py`, in source order. -/
def api_mapping : List (String × String) :=
  [("cv_username", "username"), ("cv_mobile_number", "mobile_number"),
   ("cv_gender", "gender"), ("cv_current_company", "current_company"),
   ("cv_jobrole", "jobrole"), ("cv_location_city", "current_location"),
   ("cv_current_salary", "current_salary"), ("cv_products_text", "products"),
   ("cv_sub_products_text", "sub_products"), ("cv_location_code", "location_code"),
   ("cv_age", "age")]

/-- The `for k, v in mapping.items()` fill loop of `upload_resume`:
`details[v] = llm_info[k]` whenever the LLM value is neither `None` nor the
empty string (`val not in (None, "")`). -/
def fillFromLLM (llm : String → Option (List Char)) :
    List (String × String) → (String → Option PyVal) → (String → Option PyVal)
  | [], d => d
  | (k, v) :: rest, d =>
      let d2 :=
        match llm k with
        | none => d
        | some val => if val = [] then d else updp d v (.vstr val)
      fillFromLLM llm rest d2

/-- `if "mobile_number" not in details and phones:
details["mobile_number"] = phones[0]`. -/
def fallbackMobile (phones : List (List Char)) (d : String → Option PyVal) :
    String → Option PyVal :=
  match d "mobile_number", phones with
  | none, p :: _ => updp d "mobile_number" (.vstr p)
  | _, _ => d

/-- `if "username" not in details and name: details["username"] = name`. -/
def fallbackName (name : Option (List Char)) (d : String → Option PyVal) :
    String → Option PyVal :=
  match d "username", name with
  | none, some n => if n = [] then d else updp d "username" (.vstr n)
  | _, _ => d

/-- `if "username" not in details and emails:
details["username"] = emails[0].split("@")[0]`. -/
def fallbackEmail (emails : List (List Char)) (d : String → Option PyVal) :
    String → Option PyVal :=
  match d "username", emails with
  | none, e :: _ => updp d "username" (.vstr (beforeAt e))
  | _, _ => d

/-- The trailing metadata writes of `upload_resume`: `resume`, `created`
(`None`, the DB default) and `cv_summary`. -/
def addMeta (filename finscore : List Char) (d : String → Option PyVal) :
    String → Option PyVal :=
  updp (updp (updp d "resume" (.vstr ("uploaded_".data ++ filename)))
    "created" .vnone) "cv_summary" (.vstr finscore)

/-- The merge of `upload_resume` in `app.py`: LLM fill, then local
fallbacks (first phone, NER name, email local part), then the metadata
fields.  `llm` is the LLM collaborator's output (`none` covering both an
absent key and a JSON `null`); `emails`/`phones`/`name` are the local
extraction results (`extract_phones` and `extract_name` call external
libraries, so their outputs are parameters); `finscore` is the result of
the `extract_finscore_from_text` collaborator. -/
def upload_resume_details (llm : String → Option (List Char))
    (emails phones : List (List Char)) (name : Option (List Char))
    (filename finscore : List Char) : String → Option PyVal :=
  addMeta filename finscore
    (fallbackEmail emails
      (fallbackName name
        (fallbackMobile phones (fillFromLLM llm api_mapping (fun _ => none)))))

end App

namespace ImportCvs

/-- The override loop of `process_file` in `import_cvs.py`:
`for k, v in overrides.items(): if v != DEFAULT_NA: ai_data[k] = v`. -/
def applyOverrides (d : String → Option (List Char)) (ov : RegexOverrides) :
    String → Option (List Char) :=
  let d := if ov.cv_email ≠ DEFAULT_NA then upds d "cv_email" ov.cv_email else d
  let d := if ov.cv_mobile_number ≠ DEFAULT_NA then
      upds d "cv_mobile_number" ov.cv_mobile_number else d
  let d := if ov.cv_pincode ≠ DEFAULT_NA then upds d "cv_pincode" ov.cv_pincode else d
  if ov.cv_summary ≠ DEFAULT_NA then upds d "cv_summary" ov.cv_summary else d

/-- The username block of `process_file` in `import_cvs.py`, with its
as-written indentation: the `elif`/`else` attach to the outer
`if username == DEFAULT_NA or not str(username).strip():`, so a non-blank
model username falls into the `elif` (email local part) or `else` (`#N/A`)
branch.  `cv_username`/`cv_email` are the `ai_data` entries at that point
(`none` for an absent key or `None` value, covered by the source's
`or DEFAULT_NA` and truthiness checks). -/
def resolve_username (cv_username cv_email : Option (List Char))
    (text : List Char) : List Char :=
  let username :=
    match cv_username with
    | none => DEFAULT_NA
    | some s => if s = [] then DEFAULT_NA else s
  let lines := nonEmptyStrippedLines text
  if username = DEFAULT_NA ∨ stripChars username = [] then
    match lines with
    | l :: _ => l
    | [] => username
  else if (match cv_email with
           | some e => !e.isEmpty && e ≠ DEFAULT_NA
           | none => false) then
    beforeAt (cv_email.getD [])
  else DEFAULT_NA

end ImportCvs

section MergeChecks

example :
    ImportCvs.resolve_username (some "Asha Rao".data) (some "r.asha@x.com".data)
      ("Asha Rao\nr.asha@x.com".data) = "r.asha".data := by decide

example :
    ImportCvs.resolve_username (some "Asha Rao".data) none
      ("Asha Rao\nsome text".data) = DEFAULT_NA := by decide

example :
    ImportCvs.resolve_username none none ("First Line\nmore".data)
      = "First Line".data := by decide

example :
    App.upload_resume_details
      (fun k => if k = "cv_username" then some "Asha Rao".data else none)
      ["r.asha@x.com".data] [] none [] [] "username"
      = some (.vstr "Asha Rao".data) := by decide

example :
    App.upload_resume_details
      (fun k => if k = "cv_mobile_number" then some "111".data else none)
      [] ["+919876543210".data] none [] [] "mobile_number"
      = some (.vstr "111".data) := by decide

end MergeChecks

/-! ## Claim theorems -/

/-- C5: for every input with at least 10 digit characters,
`clean_mobile_number` returns exactly the last 10 digit characters; with
fewer than 10 it returns the sentinel; the result is always the sentinel or
a string of exactly 10 digits. -/
theorem C5_clean_mobile_last_ten (raw : List Char) :
    (10 ≤ (raw.filter Char.isDigit).length →
      ImportCvs.clean_mobile_number raw =
        (raw.filter Char.isDigit).drop ((raw.filter Char.isDigit).length - 10)) ∧
    ((raw.filter Char.isDigit).length < 10 →
      ImportCvs.clean_mobile_number raw = DEFAULT_NA) ∧
    (ImportCvs.clean_mobile_number raw = DEFAULT_NA ∨
      ((ImportCvs.clean_mobile_number raw).length = 10 ∧
        ∀ c ∈ ImportCvs.clean_mobile_number raw, c.isDigit = true)) := by
  by_cases hna : raw = DEFAULT_NA
  · subst hna
    exact ⟨fun h => absurd h (by decide), fun _ => by decide, Or.inl (by decide)⟩
  · have hdrop : ∀ n : Nat, ∀ c ∈ (raw.filter Char.isDigit).drop n, c.isDigit = true := by
      intro n c hc
      exact List.of_mem_filter (List.mem_of_mem_drop hc)
    simp only [ImportCvs.clean_mobile_number, if_neg hna]
    by_cases hlen : (raw.filter Char.isDigit).length > 10
    · have hLd : ((raw.filter Char.isDigit).drop
          ((raw.filter Char.isDigit).length - 10)).length = 10 := by
        rw [List.length_drop]; omega
      simp only [if_pos hlen, hLd, if_pos rfl]
      refine ⟨fun _ => rfl, fun h => by omega, Or.inr ⟨hLd, hdrop _⟩⟩
    · simp only [if_neg hlen]
      by_cases h10 : (raw.filter Char.isDigit).length = 10
      · simp only [if_pos h10]
        refine ⟨fun _ => ?_, fun h => by omega, Or.inr ⟨h10, ?_⟩⟩
        · rw [h10]; simp
        · intro c hc; exact List.of_mem_filter hc
      · simp only [if_neg h10]
        exact ⟨fun h => by omega, fun _ => by trivial, Or.inl (by trivial)⟩

/-- C5 witness at a concrete 12-digit input. -/
theorem C5_clean_mobile_last_ten_witness :
    10 ≤ (("+91 98765-43210".data).filter Char.isDigit).length ∧
      ImportCvs.clean_mobile_number ("+91 98765-43210".data) =
        (("+91 98765-43210".data).filter Char.isDigit).drop
          ((("+91 98765-43210".data).filter Char.isDigit).length - 10) ∧
      ImportCvs.clean_mobile_number ("+91 98765-43210".data) = "9876543210".data :=
  ⟨by decide, (C5_clean_mobile_last_ten ("+91 98765-43210".data)).1 (by decide), by decide⟩

/-- The scan loop returns `false` whenever the threshold is already covered
by the pages seen so far (accumulator below the threshold on entry). -/
theorem scanGo_reaches_false (minChars : Nat) (pre post : List (Option (List Char)))
    (acc : Nat) (hacc : acc < minChars)
    (h : minChars ≤ acc + (pre.map PdfUtils.pageNonWS).sum) :
    PdfUtils.scanGo minChars (pre ++ post) acc = false := by
  induction pre generalizing acc with
  | nil => simp at h; omega
  | cons p l ih =>
      simp only [List.cons_append, PdfUtils.scanGo]
      split
      · rfl
      · rename_i hlt
        refine ih _ (by omega) ?_
        simp only [List.map_cons, List.sum_cons] at h
        omega

/-- The scan loop returns `true` when the remaining pages cannot reach the
threshold. -/
theorem scanGo_short_true (minChars : Nat) (pages : List (Option (List Char)))
    (acc : Nat) (h : acc + (pages.map PdfUtils.pageNonWS).sum < minChars) :
    PdfUtils.scanGo minChars pages acc = true := by
  induction pages generalizing acc with
  | nil => rfl
  | cons p l ih =>
      simp only [List.map_cons, List.sum_cons] at h
      simp only [PdfUtils.scanGo]
      split
      · omega
      · exact ih _ (by omega)

/-- C6: `is_scanned_pdf_bytes` returns `false` as soon as the running
non-whitespace count reaches 200, regardless of any remaining pages;
returns `true` when the whole document stays below 200; and returns `true`
when the converter collaborator fails. -/
theorem C6_scan_detector (pre post pages : List (Option (List Char))) (e : Unit) :
    (200 ≤ (pre.map PdfUtils.pageNonWS).sum →
      PdfUtils.is_scanned_pdf_bytes (.ok (pre ++ post)) 200 = false) ∧
    ((pages.map PdfUtils.pageNonWS).sum < 200 →
      PdfUtils.is_scanned_pdf_bytes (.ok pages) 200 = true) ∧
    PdfUtils.is_scanned_pdf_bytes (.error e) 200 = true := by
  refine ⟨fun h => ?_, fun h => ?_, rfl⟩
  · exact scanGo_reaches_false 200 pre post 0 (by omega) (by omega)
  · exact scanGo_short_true 200 pages 0 (by omega)

/-- C6 witness: ten pages of 20 characters reach the threshold (an eleventh
page is not consumed); nine such pages do not; a converter failure yields
`true`. -/
theorem C6_scan_detector_witness :
    200 ≤ ((List.replicate 10 (some (List.replicate 20 'x'))).map PdfUtils.pageNonWS).sum ∧
      PdfUtils.is_scanned_pdf_bytes
        (.ok (List.replicate 10 (some (List.replicate 20 'x')) ++ [some ("more".data)]))
        200 = false ∧
      PdfUtils.is_scanned_pdf_bytes (.ok (List.replicate 9 (some (List.replicate 20 'x'))))
        200 = true ∧
      PdfUtils.is_scanned_pdf_bytes (.error ()) 200 = true := by
  refine ⟨by decide, ?_, ?_, ?_⟩
  · exact (C6_scan_detector (List.replicate 10 (some (List.replicate 20 'x')))
      [some ("more".data)] [] ()).1 (by decide)
  · exact (C6_scan_detector [] [] (List.replicate 9 (some (List.replicate 20 'x'))) ()).2.1
      (by decide)
  · exact (C6_scan_detector [] [] [] ()).2.2

/-- C7: the location fallback chain returns the (city, state) hit first —
even when the (area, city) or free-text step would also match — then the
(area, city) hit, then the free-text hit, and the sentinel when every step
is skipped (inputs missing) or yields no row. -/
theorem C7_location_chain (store : List LocRow) (area city state free : List Char) :
    (∀ r, city ≠ DEFAULT_NA → state ≠ DEFAULT_NA →
      store.find? (ImportCvs.cityStateMatch city state) = some r →
      ImportCvs.find_location_id store area city state free = r.locId) ∧
    (∀ r, ImportCvs.locQuery1 store city state = none →
      area ≠ DEFAULT_NA → city ≠ DEFAULT_NA →
      store.find? (ImportCvs.areaCityMatch area city) = some r →
      ImportCvs.find_location_id store area city state free = r.locId) ∧
    (∀ r, ImportCvs.locQuery1 store city state = none →
      ImportCvs.locQuery2 store area city = none →
      free ≠ DEFAULT_NA →
      store.find? (ImportCvs.freeTextMatch free) = some r →
      ImportCvs.find_location_id store area city state free = r.locId) ∧
    (ImportCvs.locQuery1 store city state = none →
      ImportCvs.locQuery2 store area city = none →
      ImportCvs.locQuery3 store free = none →
      ImportCvs.find_location_id store area city state free = DEFAULT_NA) := by
  refine ⟨fun r hc hs hf => ?_, fun r h1 ha hc hf => ?_, fun r h1 h2 hfree hf => ?_,
    fun h1 h2 h3 => ?_⟩
  · have : ImportCvs.locQuery1 store city state = some r := by
      simp only [ImportCvs.locQuery1, if_pos (And.intro hc hs)]; exact hf
    simp only [ImportCvs.find_location_id, this]
  · have : ImportCvs.locQuery2 store area city = some r := by
      simp only [ImportCvs.locQuery2, if_pos (And.intro ha hc)]; exact hf
    simp only [ImportCvs.find_location_id, h1, this]
  · have : ImportCvs.locQuery3 store free = some r := by
      simp only [ImportCvs.locQuery3, if_pos hfree]; exact hf
    simp only [ImportCvs.find_location_id, h1, h2, this]
  · simp only [ImportCvs.find_location_id, h1, h2, h3]

/-- C7 witness: a store in which the (area, city) step and the free-text
step would both match an earlier row, yet the (city, state) hit is
returned. -/
theorem C7_location_chain_witness :
    ("Chennai".data ≠ DEFAULT_NA ∧ "Tamil Nadu".data ≠ DEFAULT_NA) ∧
    (([⟨"7".data, "anna nagar".data, "chennai".data, "xx".data⟩,
       ⟨"9".data, "zz".data, "chennai".data, "tamil nadu".data⟩] : List LocRow).find?
        (ImportCvs.cityStateMatch ("Chennai".data) ("Tamil Nadu".data))
      = some ⟨"9".data, "zz".data, "chennai".data, "tamil nadu".data⟩) ∧
    (([⟨"7".data, "anna nagar".data, "chennai".data, "xx".data⟩,
       ⟨"9".data, "zz".data, "chennai".data, "tamil nadu".data⟩] : List LocRow).find?
        (ImportCvs.areaCityMatch ("Anna Nagar".data) ("Chennai".data))
      = some ⟨"7".data, "anna nagar".data, "chennai".data, "xx".data⟩) ∧
    ImportCvs.find_location_id
      [⟨"7".data, "anna nagar".data, "chennai".data, "xx".data⟩,
       ⟨"9".data, "zz".data, "chennai".data, "tamil nadu".data⟩]
      ("Anna Nagar".data) ("Chennai".data) ("Tamil Nadu".data)
      ("Anna Nagar Chennai".data) = "9".data := by
  refine ⟨⟨by decide, by decide⟩, by decide, by decide, ?_⟩
  exact (C7_location_chain
    [⟨"7".data, "anna nagar".data, "chennai".data, "xx".data⟩,
     ⟨"9".data, "zz".data, "chennai".data, "tamil nadu".data⟩]
    ("Anna Nagar".data) ("Chennai".data) ("Tamil Nadu".data)
    ("Anna Nagar Chennai".data)).1
    ⟨"9".data, "zz".data, "chennai".data, "tamil nadu".data⟩
    (by decide) (by decide) (by decide)

/-- C8: the score normalizer divides a numeric score above 10 by 10 before
rounding to one decimal, only rounds a score at most 10, and yields the
no-value result (`None`) on non-numeric input; the batch-path
`calculate_cv_score` yields the string `"0"` on a missing (sentinel) or
non-numeric score. -/
theorem C8_score_normalization :
    (∀ q : ℚ, 10 < q →
      LlmUtils.normalize_bfsi_score (some q) = some (LlmUtils.pyRound1 (q / 10))) ∧
    (∀ q : ℚ, q ≤ 10 →
      LlmUtils.normalize_bfsi_score (some q) = some (LlmUtils.pyRound1 q)) ∧
    LlmUtils.normalize_bfsi_score none = none ∧
    ImportCvs.calculate_cv_score .na = .zeroStr ∧
    ImportCvs.calculate_cv_score .malformed = .zeroStr := by
  refine ⟨fun q hq => ?_, fun q hq => ?_, rfl, rfl, rfl⟩
  · simp only [LlmUtils.normalize_bfsi_score, if_pos hq]
  · simp only [LlmUtils.normalize_bfsi_score, if_neg (not_lt.mpr hq)]

/-- C8 witness: 85 normalizes to 8.5 (85/10 rounded to one decimal), and
1.25 (at most 10) rounds to 1.2 under round-half-to-even. -/
theorem C8_score_normalization_witness :
    (10 : ℚ) < 85 ∧
      LlmUtils.normalize_bfsi_score (some 85) = some (LlmUtils.pyRound1 (85 / 10)) ∧
      LlmUtils.pyRound1 ((85 : ℚ) / 10) = 17 / 2 ∧
      (5 : ℚ) / 4 ≤ 10 ∧
      LlmUtils.normalize_bfsi_score (some (5 / 4)) = some (LlmUtils.pyRound1 (5 / 4)) ∧
      LlmUtils.pyRound1 ((5 : ℚ) / 4) = 6 / 5 := by
  refine ⟨by norm_num, C8_score_normalization.1 85 (by norm_num), ?_, by norm_num,
    C8_score_normalization.2.1 (5 / 4) (by norm_num), ?_⟩
  · norm_num [LlmUtils.pyRound1, LlmUtils.roundHalfEven]
  · norm_num [LlmUtils.pyRound1, LlmUtils.roundHalfEven]

/-- C3 counterexample: in the model-path scorer (`llm_utils.detect_gender`),
the text `"he she"` accumulates the equal nonzero scores (3, 3), yet the
result is the sentinel `#N/A`, not `"Male"` as the claim requires of both
implementations. -/
theorem C3_counterexample_model_tie :
    LlmUtils.genderScores [] [] [] ("he she".data) [] = (3, 3) ∧
    LlmUtils.detect_gender [] [] [] ("he she".data) [] = DEFAULT_NA ∧
    DEFAULT_NA ≠ "Male".data := by
  exact ⟨by decide, by decide, by decide⟩

/-- C3 (amended): in both scorers, all-zero evidence yields the sentinel and
a strictly greater score wins; an equal nonzero score resolves to Male in
the batch scorer (`import_cvs.detect_gender`) but to the sentinel in the
model-path scorer (`llm_utils.detect_gender`). -/
theorem C3_gender_resolution (mN fN : List (List Char))
    (text name email : List Char) (llmg : Option (List Char))
    (nm tx em : List Char) :
    ((ImportCvs.genderScores mN fN text name llmg email = (0, 0) →
        ImportCvs.detect_gender mN fN text name llmg email = DEFAULT_NA) ∧
      ((ImportCvs.genderScores mN fN text name llmg email).2 <
          (ImportCvs.genderScores mN fN text name llmg email).1 →
        ImportCvs.detect_gender mN fN text name llmg email = "Male".data) ∧
      ((ImportCvs.genderScores mN fN text name llmg email).1 <
          (ImportCvs.genderScores mN fN text name llmg email).2 →
        ImportCvs.detect_gender mN fN text name llmg email = "Female".data) ∧
      ((ImportCvs.genderScores mN fN text name llmg email).1 =
          (ImportCvs.genderScores mN fN text name llmg email).2 →
        ImportCvs.genderScores mN fN text name llmg email ≠ (0, 0) →
        ImportCvs.detect_gender mN fN text name llmg email = "Male".data)) ∧
    ((LlmUtils.genderScores mN fN nm tx em = (0, 0) →
        LlmUtils.detect_gender mN fN nm tx em = DEFAULT_NA) ∧
      ((LlmUtils.genderScores mN fN nm tx em).2 <
          (LlmUtils.genderScores mN fN nm tx em).1 →
        LlmUtils.detect_gender mN fN nm tx em = "Male".data) ∧
      ((LlmUtils.genderScores mN fN nm tx em).1 <
          (LlmUtils.genderScores mN fN nm tx em).2 →
        LlmUtils.detect_gender mN fN nm tx em = "Female".data) ∧
      ((LlmUtils.genderScores mN fN nm tx em).1 =
          (LlmUtils.genderScores mN fN nm tx em).2 →
        LlmUtils.detect_gender mN fN nm tx em = DEFAULT_NA)) := by
  constructor
  · simp only [ImportCvs.detect_gender]
    refine ⟨fun h => ?_, fun h => ?_, fun h => ?_, fun h hne => ?_⟩
    · rw [h]; simp
    · rw [if_neg (by omega), if_pos (by omega)]
    · rw [if_neg (by omega), if_neg (by omega)]
    · rw [if_neg ?_, if_pos (by omega)]
      intro hc
      exact hne (Prod.ext_iff.mpr ⟨hc.1, by omega⟩)
  · simp only [LlmUtils.detect_gender]
    refine ⟨fun h => ?_, fun h => ?_, fun h => ?_, fun h => ?_⟩
    · rw [h]; simp
    · rw [if_pos (by omega)]
    · rw [if_neg (by omega), if_pos (by omega)]
    · rw [if_neg (by omega), if_neg (by omega)]

/-- C3 witness: a batch-path tie (name token "ram" male, "sita" female, each
weight 5, no other evidence) has equal nonzero scores (5, 5) and resolves to
Male. -/
theorem C3_gender_resolution_witness :
    ImportCvs.genderScores ["ram".data] ["sita".data] [] ("Ram Sita".data)
        none DEFAULT_NA = (5, 5) ∧
      ImportCvs.detect_gender ["ram".data] ["sita".data] [] ("Ram Sita".data)
        none DEFAULT_NA = "Male".data := by
  refine ⟨by decide, ?_⟩
  exact (C3_gender_resolution ["ram".data] ["sita".data] [] ("Ram Sita".data)
    DEFAULT_NA none [] [] []).1.2.2.2 (by decide) (by decide)

/-- C2: `normalize_text` is not idempotent.  On `"a\r\r\nb"` the `\r\n`
substitution itself produces a new `\r\n`, so a first application yields
`"a\r\nb"` while a second application yields `"a\nb"` (NFKC is the identity
on this ASCII input). -/
theorem C2_normalize_not_idempotent :
    Layout.normalize_text id ("a\r\r\nb".data) = "a\r\nb".data ∧
    Layout.normalize_text id (Layout.normalize_text id ("a\r\r\nb".data)) = "a\nb".data ∧
    ("a\r\nb".data : List Char) ≠ "a\nb".data := by
  exact ⟨by decide, by decide, by decide⟩

/-- C4: on the batch path the `elif` of the username block attaches to the
outer `if`, so a non-blank model username (`"Asha Rao"`) is replaced by the
email local part (`"r.asha"`) whenever a regex email is present — and by the
sentinel when none is — while the API path correctly keeps the model value. -/
theorem C4_username_email_localpart_bug :
    (ImportCvs.basic_regex_overrides ("Asha Rao\nr.asha@x.com".data)).cv_email
        = "r.asha@x.com".data ∧
      ImportCvs.resolve_username (some ("Asha Rao".data)) (some ("r.asha@x.com".data))
        ("Asha Rao\nr.asha@x.com".data) = "r.asha".data ∧
      ("r.asha".data : List Char) ≠ "Asha Rao".data ∧
      ImportCvs.resolve_username (some ("Asha Rao".data)) none
        ("Asha Rao\nsome text".data) = DEFAULT_NA ∧
      App.upload_resume_details
        (fun k => if k = "cv_username" then some ("Asha Rao".data) else none)
        ["r.asha@x.com".data] [] none [] [] "username"
        = some (.vstr ("Asha Rao".data)) := by
  exact ⟨by decide, by decide, by decide, by decide, by decide⟩

/-- A mapping pass leaves a key untouched when no pair targets it. -/
theorem fillFromLLM_ne_target (llm : String → Option (List Char))
    (maps : List (String × String)) (d : String → Option PyVal) (key : String)
    (h : ∀ p ∈ maps, p.2 ≠ key) :
    App.fillFromLLM llm maps d key = d key := by
  induction maps generalizing d with
  | nil => rfl
  | cons p rest ih =>
      obtain ⟨k, v⟩ := p
      have hv : v ≠ key := h (k, v) (List.mem_cons_self _ _)
      simp only [App.fillFromLLM]
      rw [ih _ (fun q hq => h q (List.mem_cons_of_mem _ hq))]
      cases hk : llm k with
      | none => rfl
      | some val =>
          by_cases hval : val = []
          · simp [hval]
          · simp only [if_neg hval, updp, if_neg (Ne.symm hv)]

/-- A mapping pass leaves a key untouched when every pair targeting it has
an absent or empty LLM value. -/
theorem fillFromLLM_skip_target (llm : String → Option (List Char))
    (maps : List (String × String)) (d : String → Option PyVal) (key : String)
    (h : ∀ p ∈ maps, p.2 = key → llm p.1 = none ∨ llm p.1 = some []) :
    App.fillFromLLM llm maps d key = d key := by
  induction maps generalizing d with
  | nil => rfl
  | cons p rest ih =>
      obtain ⟨k, v⟩ := p
      simp only [App.fillFromLLM]
      rw [ih _ (fun q hq => h q (List.mem_cons_of_mem _ hq))]
      cases hk : llm k with
      | none => rfl
      | some val =>
          by_cases hval : val = []
          · simp [hval]
          · simp only [if_neg hval, updp]
            by_cases hvk : key = v
            · rcases h (k, v) (List.mem_cons_self _ _) hvk.symm with h0 | h0 <;>
                rw [hk] at h0
              · exact absurd h0 (by simp)
              · exact absurd (Option.some.inj h0) hval
            · rw [if_neg hvk]

/-- A mapping pass writes the LLM value of a pair `(k0, key)` when the value
is non-empty and no later pair targets `key`. -/
theorem fillFromLLM_target_found (llm : String → Option (List Char))
    (k0 key : String) (pre post : List (String × String))
    (d : String → Option PyVal) (v : List Char)
    (hpost : ∀ p ∈ post, p.2 ≠ key) (hllm : llm k0 = some v) (hv : v ≠ []) :
    App.fillFromLLM llm (pre ++ (k0, key) :: post) d key = some (.vstr v) := by
  induction pre generalizing d with
  | nil =>
      simp only [List.nil_append, App.fillFromLLM, hllm, if_neg hv]
      rw [fillFromLLM_ne_target llm post _ key hpost]
      simp [updp]
  | cons p rest ih =>
      obtain ⟨k1, v1⟩ := p
      simp only [List.cons_append, App.fillFromLLM]
      exact ih _

/-- The phone fallback is skipped when the model already filled the field. -/
theorem fallbackMobile_of_some (phones : List (List Char))
    (d : String → Option PyVal) (w : PyVal) (h : d "mobile_number" = some w) :
    App.fallbackMobile phones d = d := by
  cases phones <;> simp [App.fallbackMobile, h]

/-- The phone fallback writes the first extracted phone when the model
produced none. -/
theorem fallbackMobile_of_none (p : List Char) (ps : List (List Char))
    (d : String → Option PyVal) (h : d "mobile_number" = none) :
    App.fallbackMobile (p :: ps) d = updp d "mobile_number" (.vstr p) := by
  simp [App.fallbackMobile, h]

/-- The name fallback never touches the mobile-number field. -/
theorem fallbackName_mobile (name : Option (List Char)) (d : String → Option PyVal) :
    App.fallbackName name d "mobile_number" = d "mobile_number" := by
  cases hd : d "username" with
  | none =>
      cases name with
      | none => simp [App.fallbackName, hd]
      | some n =>
          by_cases hn : n = [] <;> simp [App.fallbackName, hd, hn, updp]
  | some v => cases name <;> simp [App.fallbackName, hd]

/-- The email fallback never touches the mobile-number field. -/
theorem fallbackEmail_mobile (emails : List (List Char)) (d : String → Option PyVal) :
    App.fallbackEmail emails d "mobile_number" = d "mobile_number" := by
  cases hd : d "username" with
  | none =>
      cases emails with
      | nil => simp [App.fallbackEmail, hd]
      | cons e es => simp [App.fallbackEmail, hd, updp]
  | some v => cases emails <;> simp [App.fallbackEmail, hd]

/-- The metadata writes never touch the mobile-number field. -/
theorem addMeta_mobile (fn fs : List Char) (d : String → Option PyVal) :
    App.addMeta fn fs d "mobile_number" = d "mobile_number" := by
  simp [App.addMeta, updp]

/-- C1 counterexample: on the API path the model's `cv_mobile_number`
(`"111"`) survives into the record even though the local phone extractor
produced `"+919876543210"` — the regex value does not override there. -/
theorem C1_counterexample_api_phone :
    App.upload_resume_details
      (fun k => if k = "cv_mobile_number" then some ("111".data) else none)
      [] ["+919876543210".data] none [] [] "mobile_number"
      = some (.vstr ("111".data)) ∧
    ("111".data : List Char) ≠ "+919876543210".data := by
  exact ⟨by decide, by decide⟩

/-- C1 (amended): on the batch path a non-empty regex value for each of the
four override fields replaces any prior record value; on the API path no
regex override occurs — a non-empty model `cv_mobile_number` wins, and the
locally extracted phone is used only when the model produced none. -/
theorem C1_regex_override_policy (text : List Char)
    (d : String → Option (List Char)) (llm : String → Option (List Char))
    (emails phones : List (List Char)) (name : Option (List Char))
    (filename finscore : List Char) :
    ((ImportCvs.basic_regex_overrides text).cv_email ≠ DEFAULT_NA →
      ImportCvs.applyOverrides d (ImportCvs.basic_regex_overrides text) "cv_email"
        = some (ImportCvs.basic_regex_overrides text).cv_email) ∧
    ((ImportCvs.basic_regex_overrides text).cv_mobile_number ≠ DEFAULT_NA →
      ImportCvs.applyOverrides d (ImportCvs.basic_regex_overrides text) "cv_mobile_number"
        = some (ImportCvs.basic_regex_overrides text).cv_mobile_number) ∧
    ((ImportCvs.basic_regex_overrides text).cv_pincode ≠ DEFAULT_NA →
      ImportCvs.applyOverrides d (ImportCvs.basic_regex_overrides text) "cv_pincode"
        = some (ImportCvs.basic_regex_overrides text).cv_pincode) ∧
    ((ImportCvs.basic_regex_overrides text).cv_summary ≠ DEFAULT_NA →
      ImportCvs.applyOverrides d (ImportCvs.basic_regex_overrides text) "cv_summary"
        = some (ImportCvs.basic_regex_overrides text).cv_summary) ∧
    (∀ v, llm "cv_mobile_number" = some v → v ≠ [] →
      App.upload_resume_details llm emails phones name filename finscore "mobile_number"
        = some (.vstr v)) ∧
    ((llm "cv_mobile_number" = none ∨ llm "cv_mobile_number" = some []) →
      ∀ p ps, phones = p :: ps →
      App.upload_resume_details llm emails phones name filename finscore "mobile_number"
        = some (.vstr p)) := by
  refine ⟨fun h => ?_, fun h => ?_, fun h => ?_, fun h => ?_, fun v hv hne => ?_,
    fun hnone p ps hp => ?_⟩
  · simp only [ImportCvs.applyOverrides, if_pos h]
    split_ifs <;> simp [upds]
  · simp only [ImportCvs.applyOverrides, if_pos h]
    split_ifs <;> simp [upds]
  · simp only [ImportCvs.applyOverrides, if_pos h]
    split_ifs <;> simp [upds]
  · simp only [ImportCvs.applyOverrides, if_pos h]
    simp [upds]
  · have hfill : App.fillFromLLM llm App.api_mapping (fun _ => none) "mobile_number"
        = some (.vstr v) := by
      have hsplit : App.api_mapping
          = [("cv_username", "username")] ++ ("cv_mobile_number", "mobile_number") ::
            [("cv_gender", "gender"), ("cv_current_company", "current_company"),
             ("cv_jobrole", "jobrole"), ("cv_location_city", "current_location"),
             ("cv_current_salary", "current_salary"), ("cv_products_text", "products"),
             ("cv_sub_products_text", "sub_products"),
             ("cv_location_code", "location_code"), ("cv_age", "age")] := rfl
      rw [hsplit]
      exact fillFromLLM_target_found llm _ _ _ _ _ _ (by decide) hv hne
    simp only [App.upload_resume_details, addMeta_mobile, fallbackEmail_mobile,
      fallbackName_mobile]
    rw [fallbackMobile_of_some phones _ _ hfill, hfill]
  · have hfill : App.fillFromLLM llm App.api_mapping (fun _ => none) "mobile_number"
        = none := by
      rw [fillFromLLM_skip_target llm App.api_mapping _ "mobile_number" ?_]
      intro q hq hq2
      simp only [App.api_mapping, List.mem_cons, List.not_mem_nil, or_false] at hq
      rcases hq with h0 | h0 | h0 | h0 | h0 | h0 | h0 | h0 | h0 | h0 | h0 <;>
        (rw [h0] at hq2 ⊢; first | exact hnone | exact absurd hq2 (by decide))
    subst hp
    simp only [App.upload_resume_details, addMeta_mobile, fallbackEmail_mobile,
      fallbackName_mobile]
    rw [fallbackMobile_of_none p ps _ hfill]
    simp [updp]

/-- C1 witness: a batch text whose regex extraction produces all four
override values, each of which lands in the record; and an API call where
the model produced no mobile number, so the first locally extracted phone is
used. -/
theorem C1_regex_override_policy_witness :
    (ImportCvs.basic_regex_overrides ("r.asha@x.com\n+91 9876543210\nChennai 600042".data)).cv_email
        ≠ DEFAULT_NA ∧
    ImportCvs.applyOverrides (fun _ => some ("model".data))
        (ImportCvs.basic_regex_overrides ("r.asha@x.com\n+91 9876543210\nChennai 600042".data))
        "cv_email" = some ("r.asha@x.com".data) ∧
    ImportCvs.applyOverrides (fun _ => some ("model".data))
        (ImportCvs.basic_regex_overrides ("r.asha@x.com\n+91 9876543210\nChennai 600042".data))
        "cv_mobile_number" = some ("+919876543210".data) ∧
    ImportCvs.applyOverrides (fun _ => some ("model".data))
        (ImportCvs.basic_regex_overrides ("r.asha@x.com\n+91 9876543210\nChennai 600042".data))
        "cv_pincode" = some ("600042".data) ∧
    App.upload_resume_details (fun _ => none) [] ["+919876543210".data] none [] []
        "mobile_number" = some (.vstr ("+919876543210".data)) := by
  refine ⟨by decide, ?_, ?_, ?_, ?_⟩
  · have h := (C1_regex_override_policy
      ("r.asha@x.com\n+91 9876543210\nChennai 600042".data)
      (fun _ => some ("model".data)) (fun _ => none) [] [] none [] []).1 (by decide)
    rw [h]; decide
  · have h := (C1_regex_override_policy
      ("r.asha@x.com\n+91 9876543210\nChennai 600042".data)
      (fun _ => some ("model".data)) (fun _ => none) [] [] none [] []).2.1 (by decide)
    rw [h]; decide
  · have h := (C1_regex_override_policy
      ("r.asha@x.com\n+91 9876543210\nChennai 600042".data)
      (fun _ => some ("model".data)) (fun _ => none) [] [] none [] []).2.2.1 (by decide)
    rw [h]; decide
  · exact (C1_regex_override_policy [] (fun _ => none) (fun _ => none) []
      ["+919876543210".data] none [] []).2.2.2.2.2 (Or.inl rfl)
      ("+919876543210".data) [] rfl

/-- `Char.ofNat` of a valid code point keeps the code point. -/
theorem toNat_ofNat_valid (n : Nat) (h : n.isValidChar) : (Char.ofNat n).toNat = n := by
  rw [Char.ofNat, dif_pos h]
  rfl

/-- Code point of `Char.toLower`: basic latin capitals move down by 32,
everything else is fixed. -/
theorem toLower_toNat (c : Char) :
    (Char.toLower c).toNat =
      if 65 ≤ c.toNat ∧ c.toNat ≤ 90 then c.toNat + 32 else c.toNat := by
  simp only [Char.toLower]
  by_cases h : 65 ≤ c.toNat ∧ c.toNat ≤ 90
  · rw [if_pos h, if_pos h]
    exact toNat_ofNat_valid _ (Or.inl (by omega))
  · rw [if_neg h, if_neg h]

/-- Characters with equal code points are equal. -/
theorem char_eq_of_toNat_eq {c d : Char} (h : c.toNat = d.toNat) : c = d :=
  Char.ext (UInt32.toNat.inj h)

/-- Membership in the strip set `" ,;"` characterised by code point. -/
theorem punct_mem_iff (x : Char) :
    x ∈ ([' ', ',', ';'] : List Char) ↔
      (x.toNat = 32 ∨ x.toNat = 44 ∨ x.toNat = 59) := by
  simp only [List.mem_cons, List.not_mem_nil, or_false]
  constructor
  · rintro (h | h | h) <;> subst h <;> decide
  · rintro (h | h | h)
    · exact Or.inl (char_eq_of_toNat_eq (h.trans (by decide)))
    · exact Or.inr (Or.inl (char_eq_of_toNat_eq (h.trans (by decide))))
    · exact Or.inr (Or.inr (char_eq_of_toNat_eq (h.trans (by decide))))

/-- Lowering a local-part character never produces a strip-set character. -/
theorem toLower_local_notin_punct (c : Char) (h : isLocalChar c = true) :
    Char.toLower c ∉ ([' ', ',', ';'] : List Char) := by
  have ht := toLower_toNat c
  intro hmem
  have hn := (punct_mem_iff _).mp hmem
  simp only [isLocalChar, isAsciiLetter, isAsciiDigit, Bool.or_eq_true,
    decide_eq_true_eq, beq_iff_eq] at h
  rcases h with ((((((h | h) | h) | h) | h) | h) | h)
  · rcases h with h | h
    · rw [if_pos (by omega)] at ht; omega
    · rw [if_neg (by omega)] at ht; omega
  · rw [if_neg (by omega)] at ht; omega
  · subst h; revert hn; decide
  · subst h; revert hn; decide
  · subst h; revert hn; decide
  · subst h; revert hn; decide
  · subst h; revert hn; decide

/-- Lowering an ASCII letter never produces a strip-set character. -/
theorem toLower_letter_notin_punct (c : Char) (h : isAsciiLetter c = true) :
    Char.toLower c ∉ ([' ', ',', ';'] : List Char) := by
  have ht := toLower_toNat c
  intro hmem
  have hn := (punct_mem_iff _).mp hmem
  simp only [isAsciiLetter, decide_eq_true_eq] at h
  rcases h with h | h
  · rw [if_pos (by omega)] at ht; omega
  · rw [if_neg (by omega)] at ht; omega

/-- `str.strip(chars)` is the identity on a string whose first and last
characters are outside the strip set. -/
theorem stripSet_eq_self (cs l : List Char)
    (hh : ∀ c, l.head? = some c → c ∉ cs)
    (hl : ∀ c, l.getLast? = some c → c ∉ cs) :
    stripSet cs l = l := by
  unfold stripSet
  have h1 : l.dropWhile (fun c => cs.contains c) = l := by
    cases l with
    | nil => rfl
    | cons a t =>
        refine List.dropWhile_cons_of_neg ?_
        simp only [List.elem_eq_mem, decide_eq_true_eq]
        exact hh a rfl
  rw [h1]
  have h2 : l.reverse.dropWhile (fun c => cs.contains c) = l.reverse := by
    cases hr : l.reverse with
    | nil => rfl
    | cons a t =>
        have ha : l.getLast? = some a := by
          rw [← List.head?_reverse, hr]; rfl
        refine List.dropWhile_cons_of_neg ?_
        simp only [List.elem_eq_mem, decide_eq_true_eq]
        exact hl a ha
  rw [h2, List.reverse_reverse]

/-- Specification of the backtracking dot search: the returned letter run is
the greedy alphabetic run after the dot position and has length at least 2. -/
theorem bestDot_spec (rest : List Char) (n : Nat) :
    ∀ j a, bestDot rest n = some (j, a) →
      a = (rest.drop (j + 1)).takeWhile isAsciiLetter ∧ 2 ≤ a.length := by
  induction n with
  | zero => intro j a h; simp [bestDot] at h
  | succ k ih =>
      intro j a h
      simp only [bestDot] at h
      split at h
      · rename_i hcond
        rcases Bool.and_eq_true_iff.mp hcond with ⟨_, h2⟩
        injection h with h
        injection h with hj ha
        subst hj
        subst ha
        exact ⟨rfl, of_decide_eq_true h2⟩
      · exact ih j a h

/-- Every match of the email pattern starts with a local-part character and
ends with an ASCII letter. -/
theorem emailMatchAt_head_last (s m : List Char) (h : emailMatchAt s = some m) :
    (∃ c, m.head? = some c ∧ isLocalChar c = true) ∧
    (∃ c, m.getLast? = some c ∧ isAsciiLetter c = true) := by
  simp only [emailMatchAt] at h
  split at h
  · exact absurd h (by simp)
  · rename_i hloc
    split at h
    · rename_i rest heq
      split at h
      · rename_i j a hbest
        obtain ⟨ha, halen⟩ := bestDot_spec rest _ j a hbest
        injection h with h
        subst h
        constructor
        · rcases htw : s.takeWhile isLocalChar with _ | ⟨c, t⟩
          · rw [htw] at hloc
            exact absurd rfl hloc
          · refine ⟨c, ?_, ?_⟩
            · rfl
            · exact List.mem_takeWhile_imp (htw ▸ List.mem_cons_self c t)
        · have hane : a ≠ [] := by
            intro h0; rw [h0] at halen; simp at halen
          rcases hy : a.getLast? with _ | y
          · rcases a with _ | ⟨x, t⟩
            · exact absurd rfl hane
            · rw [List.getLast?_cons] at hy
              simp at hy
          · refine ⟨y, ?_, ?_⟩
            · have hassoc : s.takeWhile isLocalChar ++ '@' :: (rest.take j ++ '.' :: a)
                  = (s.takeWhile isLocalChar ++ '@' :: rest.take j ++ ['.']) ++ a := by
                simp
              rw [hassoc, List.getLast?_append, hy]
              rfl
            · have hmem : y ∈ a := List.mem_of_mem_getLast? (Option.mem_def.mpr hy)
              rw [ha] at hmem
              exact List.mem_takeWhile_imp hmem
      · exact absurd h (by simp)
    · exact absurd h (by simp)

/-- Every element of the email scan is a match of the email pattern at some
position. -/
theorem mem_findEmailsAux (fuel : Nat) (s m : List Char)
    (h : m ∈ findEmailsAux fuel s) : ∃ s0, emailMatchAt s0 = some m := by
  induction fuel generalizing s with
  | zero => simp [findEmailsAux] at h
  | succ k ih =>
      cases s with
      | nil => simp [findEmailsAux] at h
      | cons c rest =>
          simp only [findEmailsAux] at h
          cases hm : emailMatchAt (c :: rest) with
          | some m0 =>
              rw [hm] at h
              rcases List.mem_cons.mp h with h1 | h1
              · exact ⟨c :: rest, by rw [hm, h1]⟩
              · exact ih _ h1
          | none =>
              rw [hm] at h
              exact ih _ h

/-- C9 counterexample: `extract_emails` keeps duplicate matches — the claim
says duplicate values are removed from the returned list. -/
theorem C9_counterexample_duplicates :
    Entities.extract_emails ("a@b.co a@b.co".data)
        = ["a@b.co".data, "a@b.co".data] ∧
      ¬ (Entities.extract_emails ("a@b.co a@b.co".data)).Nodup := by
  constructor
  · decide
  · intro h
    rw [(by decide : Entities.extract_emails ("a@b.co a@b.co".data)
      = ["a@b.co".data, "a@b.co".data])] at h
    simp at h

/-- C9 (amended): `extract_emails` returns exactly the pattern matches in
order of occurrence, each lower-cased; the `.strip(" ,;")` trim is vacuous
because a match always starts with a local-part character and ends with a
letter, and duplicates are retained (the list is the image of the match
list under lower-casing, with no deduplication). -/
theorem C9_extract_emails_lowered_matches (s : List Char) :
    Entities.extract_emails s = (findEmails s).map lowerList := by
  unfold Entities.extract_emails
  refine List.map_congr_left ?_
  intro m hm
  obtain ⟨s0, hmatch⟩ := mem_findEmailsAux s.length s m hm
  obtain ⟨⟨c, hc, hcl⟩, ⟨d, hd, hdl⟩⟩ := emailMatchAt_head_last s0 m hmatch
  refine stripSet_eq_self _ _ ?_ ?_
  · intro x hx
    rw [lowerList, List.head?_map, hc] at hx
    injection hx with hx
    rw [← hx]
    exact toLower_local_notin_punct c hcl
  · intro x hx
    rw [lowerList, List.getLast?_map, hd] at hx
    injection hx with hx
    rw [← hx]
    exact toLower_letter_notin_punct d hdl

/-- Detector for three consecutive newline characters (a run of two or more
empty lines) anywhere in a string. -/
def has3NL : List Char → Bool
  | a :: rest =>
      (a == '\n' && rest.head? == some '\n' && rest.tail.head? == some '\n') ||
        has3NL rest
  | [] => false

/-- Detector for two consecutive newline characters anywhere in a string. -/
def has2NL : List Char → Bool
  | a :: rest => (a == '\n' && rest.head? == some '\n') || has2NL rest
  | [] => false

/-- Dropping the head preserves the absence of a triple newline. -/
theorem has3NL_false_tail {c : Char} {l : List Char}
    (h : has3NL (c :: l) = false) : has3NL l = false := by
  simp only [has3NL, Bool.or_eq_false_iff] at h
  exact h.2

/-- The right part of an append inherits the absence of a triple newline. -/
theorem has3NL_false_append_right {x y : List Char}
    (h : has3NL (x ++ y) = false) : has3NL y = false := by
  induction x with
  | nil => exact h
  | cons c t ih => exact ih (has3NL_false_tail h)

/-- A prefix inherits the absence of a triple newline. -/
theorem has3NL_false_append_left {l t : List Char}
    (h : has3NL (l ++ t) = false) : has3NL l = false := by
  induction l with
  | nil => rfl
  | cons c l2 ih =>
      simp only [List.cons_append, has3NL, Bool.or_eq_false_iff] at h
      obtain ⟨hlook, hrest⟩ := h
      simp only [has3NL, Bool.or_eq_false_iff]
      refine ⟨?_, ih hrest⟩
      rcases l2 with _ | ⟨x, l3⟩
      · simp
      · rcases l3 with _ | ⟨y, l4⟩
        · simp
        · simpa using hlook

/-- `dropWhile` preserves the absence of a triple newline. -/
theorem has3NL_false_dropWhile (p : Char → Bool) {l : List Char}
    (h : has3NL l = false) : has3NL (l.dropWhile p) = false := by
  obtain ⟨pre, hpre⟩ := List.dropWhile_suffix p (l := l)
  rw [← hpre] at h
  exact has3NL_false_append_right h

/-- `dropEndWS` yields a prefix of its input. -/
theorem dropEndWS_append (l : List Char) :
    l = dropEndWS l ++ (l.reverse.takeWhile isPyWS).reverse := by
  have h := List.takeWhile_append_dropWhile isPyWS (l := l.reverse)
  have h2 := congrArg List.reverse h
  rw [List.reverse_append, List.reverse_reverse] at h2
  rw [dropEndWS]
  exact h2.symm

/-- Trailing-whitespace removal preserves the absence of a triple newline. -/
theorem has3NL_false_dropEndWS {l : List Char}
    (h : has3NL l = false) : has3NL (dropEndWS l) = false := by
  have := dropEndWS_append l
  rw [this] at h
  exact has3NL_false_append_left h

/-- `str.strip()` preserves the absence of a triple newline. -/
theorem has3NL_false_stripChars {l : List Char}
    (h : has3NL l = false) : has3NL (stripChars l) = false :=
  has3NL_false_dropEndWS (has3NL_false_dropWhile isPyWS h)

/-- A short newline block followed by a non-newline and a clean tail has no
triple newline. -/
theorem has3NL_false_block {m : Nat} (hm : m ≤ 2) {c : Char} (hc : ¬c = '\n')
    {z : List Char} (hz : has3NL z = false) :
    has3NL (List.replicate m '\n' ++ c :: z) = false := by
  interval_cases m
  · simpa [has3NL, hc] using hz
  · simpa [has3NL, hc] using hz
  · simpa [has3NL, hc] using hz

/-- A newline block of length at most two has no triple newline. -/
theorem has3NL_false_replicate {m : Nat} (hm : m ≤ 2) :
    has3NL (List.replicate m '\n') = false := by
  interval_cases m <;> decide

/-- The output of the newline-collapsing substitution never contains three
consecutive newlines. -/
theorem has3NL_false_collapseNLAux (l : List Char) :
    ∀ k, has3NL (Layout.collapseNLAux k l) = false := by
  induction l with
  | nil =>
      intro k
      simp only [Layout.collapseNLAux]
      exact has3NL_false_replicate (Nat.min_le_right k 2)
  | cons c rest ih =>
      intro k
      simp only [Layout.collapseNLAux]
      by_cases hc : c = '\n'
      · rw [if_pos (by simp [hc])]
        exact ih (k + 1)
      · rw [if_neg (by simp [hc])]
        exact has3NL_false_block (Nat.min_le_right k 2) hc (ih 0)

/-- The output of `collapseNewlines` never contains three consecutive
newlines. -/
theorem has3NL_false_collapseNewlines (l : List Char) :
    has3NL (Layout.collapseNewlines l) = false :=
  has3NL_false_collapseNLAux l 0

set_option maxHeartbeats 1000000 in
/-- The `splitlines` worker on an empty string returns the accumulator.
(Elaborated under a raised heartbeat limit: generating the equation lemmas
of `splitlinesAux`, with its literal character patterns, exceeds the default
limit; later proofs reuse the generated equations.) -/
theorem splitlinesAux_nil (acc : List Char) :
    splitlinesAux acc [] = [acc.reverse] := by
  simp only [splitlinesAux]

set_option maxHeartbeats 1000000 in
/-- Pieces produced by the `splitlines` worker contain no line-break
characters (given a clean accumulator). -/
theorem splitlinesAux_no_break :
    ∀ n s acc, s.length ≤ n → (∀ c ∈ acc, isLineBreak c = false) →
      ∀ p ∈ splitlinesAux acc s, ∀ c ∈ p, isLineBreak c = false := by
  intro n
  induction n with
  | zero =>
      intro s acc hlen hacc p hp c hc
      have hs : s = [] := List.length_eq_zero.mp (Nat.le_zero.mp hlen)
      subst hs
      simp only [splitlinesAux, List.mem_singleton] at hp
      subst hp
      exact hacc c (List.mem_reverse.mp hc)
  | succ n ih =>
      intro s acc hlen hacc p hp c hc
      rw [splitlinesAux.eq_def] at hp
      split at hp
      · simp only [List.mem_singleton] at hp
        subst hp
        exact hacc c (List.mem_reverse.mp hc)
      · rename_i rest
        split at hp
        · simp only [List.mem_singleton] at hp
          subst hp
          exact hacc c (List.mem_reverse.mp hc)
        · rcases List.mem_cons.mp hp with h1 | h1
          · subst h1
            exact hacc c (List.mem_reverse.mp hc)
          · exact ih rest [] (by simp at hlen; omega) (by simp) p h1 c hc
      · rename_i c0 rest hne
        split at hp
        · split at hp
          · simp only [List.mem_singleton] at hp
            subst hp
            exact hacc c (List.mem_reverse.mp hc)
          · rcases List.mem_cons.mp hp with h1 | h1
            · subst h1
              exact hacc c (List.mem_reverse.mp hc)
            · exact ih rest [] (by simp at hlen; omega) (by simp) p h1 c hc
        · rename_i hbreak
          refine ih rest (c0 :: acc) (by simp at hlen; omega) ?_ p hp c hc
          intro x hx
          rcases List.mem_cons.mp hx with h1 | h1
          · subst h1
            exact Bool.not_eq_true _ ▸ (by simpa using hbreak)
          · exact hacc x h1

/-- Pieces of `splitlines` contain no line-break characters. -/
theorem splitlines_no_break (s : List Char) :
    ∀ p ∈ splitlines s, ∀ c ∈ p, isLineBreak c = false := by
  intro p hp c hc
  rw [splitlines] at hp
  split at hp
  · simp at hp
  · exact splitlinesAux_no_break s.length s [] (Nat.le_refl _) (by simp) p hp c hc

/-- Membership in a stripped string implies membership in the original. -/
theorem mem_stripChars {c : Char} {l : List Char} (h : c ∈ stripChars l) : c ∈ l := by
  rw [stripChars, dropEndWS] at h
  rw [List.mem_reverse] at h
  have h2 := (List.dropWhile_sublist isPyWS).subset h
  rw [List.mem_reverse] at h2
  exact (List.dropWhile_sublist isPyWS).subset h2

/-- A string without newlines has no two consecutive newlines. -/
theorem has2NL_false_of_no_nl {l : List Char} (h : '\n' ∉ l) : has2NL l = false := by
  induction l with
  | nil => rfl
  | cons c t ih =>
      have hc : ¬c = '\n' := fun hx => h (hx ▸ List.mem_cons_self c t)
      simp only [has2NL, Bool.or_eq_false_iff]
      exact ⟨by simp [hc], ih (fun hx => h (List.mem_cons_of_mem c hx))⟩

/-- Prepending a newline-free string preserves the absence of a double
newline. -/
theorem has2NL_false_append {l y : List Char} (hl : '\n' ∉ l)
    (hy : has2NL y = false) : has2NL (l ++ y) = false := by
  induction l with
  | nil => exact hy
  | cons c t ih =>
      have hc : ¬c = '\n' := fun hx => hl (hx ▸ List.mem_cons_self c t)
      simp only [List.cons_append, has2NL, Bool.or_eq_false_iff]
      exact ⟨by simp [hc], ih (fun hx => hl (List.mem_cons_of_mem c hx))⟩

/-- Head of a nonempty-headed join. -/
theorem joinNL_head (l : List Char) (ls : List (List Char)) (hne : l ≠ []) :
    (joinNL (l :: ls)).head? = l.head? := by
  cases ls with
  | nil => rfl
  | cons l2 ls2 =>
      rcases l with _ | ⟨c, t⟩
      · exact absurd rfl hne
      · rfl

/-- Joining nonempty newline-free lines with single newlines yields no two
consecutive newlines. -/
theorem has2NL_false_joinNL (ls : List (List Char))
    (h : ∀ l ∈ ls, l ≠ [] ∧ '\n' ∉ l) : has2NL (joinNL ls) = false := by
  induction ls with
  | nil => rfl
  | cons l ls2 ih =>
      cases ls2 with
      | nil => exact has2NL_false_of_no_nl (h l (List.mem_cons_self _ _)).2
      | cons l2 ls3 =>
          show has2NL (l ++ '\n' :: joinNL (l2 :: ls3)) = false
          refine has2NL_false_append (h l (List.mem_cons_self _ _)).2 ?_
          simp only [has2NL, Bool.or_eq_false_iff]
          constructor
          · have hl2 := h l2 (List.mem_cons_of_mem _ (List.mem_cons_self _ _))
            rw [joinNL_head l2 ls3 hl2.1]
            rcases hq : l2.head? with _ | q
            · simp
            · have hq2 : q ∈ l2 := List.mem_of_mem_head? (hq ▸ rfl)
              have : ¬q = '\n' := fun hx => hl2.2 (hx ▸ hq2)
              simp [this]
          · exact ih (fun x hx => h x (List.mem_cons_of_mem _ hx))

/-- No double newline implies no triple newline. -/
theorem has3NL_false_of_has2NL_false {l : List Char}
    (h : has2NL l = false) : has3NL l = false := by
  induction l with
  | nil => rfl
  | cons c t ih =>
      simp only [has2NL, Bool.or_eq_false_iff] at h
      obtain ⟨hlook, hrest⟩ := h
      simp only [has3NL, Bool.or_eq_false_iff]
      refine ⟨?_, ih hrest⟩
      rcases Bool.and_eq_false_iff.mp hlook with h1 | h1 <;> simp [h1]

/-- The head surviving `dropWhile` fails the predicate. -/
theorem head?_dropWhile_not (p : Char → Bool) (l : List Char) (c : Char)
    (h : (l.dropWhile p).head? = some c) : p c = false := by
  induction l with
  | nil => simp at h
  | cons a t ih =>
      by_cases hp : p a
      · rw [List.dropWhile_cons_of_pos hp] at h
        exact ih h
      · rw [List.dropWhile_cons_of_neg hp] at h
        injection h with h
        subst h
        exact Bool.not_eq_true _ ▸ (by simpa using hp)

/-- A stripped string does not start with whitespace. -/
theorem stripChars_head_not_ws (l : List Char) (c : Char)
    (h : (stripChars l).head? = some c) : isPyWS c = false := by
  rw [stripChars] at h
  have hx : (dropStartWS l).head? = some c := by
    have happ := dropEndWS_append (dropStartWS l)
    rcases he : dropEndWS (dropStartWS l) with _ | ⟨d, t⟩
    · rw [he] at h; simp at h
    · rw [he] at h
      injection h with h
      subst h
      rw [happ, he]
      rfl
  exact head?_dropWhile_not isPyWS l c hx

/-- A stripped string does not end with whitespace. -/
theorem stripChars_getLast_not_ws (l : List Char) (c : Char)
    (h : (stripChars l).getLast? = some c) : isPyWS c = false := by
  rw [stripChars, dropEndWS, List.getLast?_reverse] at h
  exact head?_dropWhile_not isPyWS (dropStartWS l).reverse c h

/-- Lines produced by `nonEmptyStrippedLines` are nonempty and contain no
newline character. -/
theorem nonEmptyStrippedLines_prop (t : List Char) :
    ∀ l ∈ nonEmptyStrippedLines t, l ≠ [] ∧ '\n' ∉ l := by
  intro l hl
  rw [nonEmptyStrippedLines] at hl
  obtain ⟨hmap, hpred⟩ := List.mem_filter.mp hl
  obtain ⟨p, hp, hpl⟩ := List.mem_map.mp hmap
  constructor
  · intro h0
    rw [h0] at hpred
    simp at hpred
  · intro hnl
    rw [← hpl] at hnl
    have := splitlines_no_break t p hp '\n' (mem_stripChars hnl)
    simp [isLineBreak] at this

/-- C10 counterexample: a lone carriage return survives normalization
unchanged — the claimed no-`\r` invariant fails. -/
theorem C10_counterexample_carriage_return :
    '\r' ∈ Layout.normalize_text id ("a\rb".data) ∧
      Layout.normalize_text id ("a\rb".data) = "a\rb".data := by
  exact ⟨by decide, by decide⟩

/-- C10 (amended): for every converter output, the normalized text contains
no three consecutive newline characters (no run of two or more empty lines)
and has no leading or trailing whitespace; carriage returns, however, can
survive (only the exact two-character sequence `\r\n` is rewritten). -/
theorem C10_normalize_invariants (nfkc : List Char → List Char) (s : List Char) :
    has3NL (Layout.normalize_text nfkc s) = false ∧
    (∀ c, (Layout.normalize_text nfkc s).head? = some c → isPyWS c = false) ∧
    (∀ c, (Layout.normalize_text nfkc s).getLast? = some c → isPyWS c = false) := by
  by_cases hs : s.isEmpty
  · rw [Layout.normalize_text, if_pos hs]
    exact ⟨rfl, fun c hc => by simp at hc, fun c hc => by simp at hc⟩
  · rw [Layout.normalize_text, if_neg hs]
    refine ⟨?_, fun c hc => stripChars_head_not_ws _ c hc,
      fun c hc => stripChars_getLast_not_ws _ c hc⟩
    apply has3NL_false_stripChars
    split
    · dsimp only
      split
      · apply has3NL_false_of_has2NL_false
        exact has2NL_false_joinNL _ (nonEmptyStrippedLines_prop _)
      · apply has3NL_false_of_has2NL_false
        refine has2NL_false_joinNL _ ?_
        intro l hl
        exact nonEmptyStrippedLines_prop _ l (List.mem_of_mem_filter hl)
    · exact has3NL_false_collapseNewlines _

/-- C10 witness: on the input `"ab"` the normalized text is `"ab"`, which
has no triple newline and starts with the non-whitespace character `a`. -/
theorem C10_normalize_invariants_witness :
    has3NL (Layout.normalize_text id ("ab".data)) = false ∧
      (Layout.normalize_text id ("ab".data)).head? = some 'a' ∧
      isPyWS 'a' = false := by
  refine ⟨(C10_normalize_invariants id ("ab".data)).1, by decide, ?_⟩
  exact (C10_normalize_invariants id ("ab".data)).2.1 'a' (by decide)
